import Mathlib

/-!
Shallow embedding of gossip/node.py: the RoundTripEstimator, the
TransmissionQueue (a lazily-invalidated heap over an authoritative mapping),
and the scheduling methods of Node.  Python floats are modelled as rationals
(exact arithmetic), Python dicts as association lists with distinct keys, and
the heapq list as a list kept sorted by the lexicographic order on
(timetosend, messageid) pairs: heapq exposes only the length, the minimal
element (heap[0]), heappop of the minimal element, heappush and heapify, and
on those observables a sorted list is equivalent to a binary heap.
-/

/-- Messages are external entities (consumed, not owned): a stable identifier,
a system flag, and a byte length (Python len(msg)).  Identifiers are modelled
as naturals; the code compares them for equality and, inside heap tuples, for
order. -/
structure Msg where
  Identifier : Nat
  IsSystemMessage : Bool
  length : Nat
deriving DecidableEq

/-- State of a RoundTripEstimator: RTO, _SRTT and _RTTVAR. -/
structure RoundTripEstimator where
  RTO : ℚ
  SRTT : ℚ
  RTTVAR : ℚ
deriving DecidableEq

namespace RoundTripEstimator

def MinimumRTO : ℚ := 1

def MaximumRTO : ℚ := 60

def BackoffRate : ℚ := 2

def MinResolution : ℚ := 1/40

def ALPHA : ℚ := 1/8

def BETA : ℚ := 1/4

def K : ℚ := 4

/-- The constructor: RTO = MinimumRTO, _SRTT = 0, _RTTVAR = 0. -/
def init : RoundTripEstimator :=
  { RTO := MinimumRTO, SRTT := 0, RTTVAR := 0 }

/-- RoundTripEstimator.update.  The pair p holds the updated (_SRTT, _RTTVAR);
as in the source, _RTTVAR is computed from the old _SRTT.  RTO is then
recomputed and clamped to [MinimumRTO, MaximumRTO]. -/
def update (s : RoundTripEstimator) (measuredrto : ℚ) : RoundTripEstimator :=
  let p :=
    if s.RTTVAR = 0 then
      (measuredrto, measuredrto * (1/2))
    else
      ((1 - ALPHA) * s.SRTT + ALPHA * measuredrto,
       (1 - BETA) * s.RTTVAR + BETA * |s.SRTT - measuredrto|)
  let rto := p.1 + max MinResolution (K * p.2)
  { RTO := max MinimumRTO (min MaximumRTO rto), SRTT := p.1, RTTVAR := p.2 }

/-- RoundTripEstimator.backoff: reset _SRTT and _RTTVAR, multiply RTO by
BackoffRate capped at MaximumRTO. -/
def backoff (s : RoundTripEstimator) : RoundTripEstimator :=
  { RTO := min (s.RTO * BackoffRate) MaximumRTO, SRTT := 0, RTTVAR := 0 }

end RoundTripEstimator

/-- One call on a RoundTripEstimator: an update with a measured value, or a
backoff. -/
inductive RTEOp where
  | upd : ℚ → RTEOp
  | back : RTEOp

/-- Apply one estimator call. -/
def RTEOp.apply (s : RoundTripEstimator) : RTEOp → RoundTripEstimator
  | .upd x => s.update x
  | .back => s.backoff

/-- Apply a sequence of estimator calls in order. -/
def applyRTEOps (s : RoundTripEstimator) (ops : List RTEOp) : RoundTripEstimator :=
  ops.foldl RTEOp.apply s

/-- Lookup in an association list (the model of a Python dict). -/
def alookup {β : Type} (id : Nat) : List (Nat × β) → Option β
  | [] => none
  | (k, v) :: rest => if k = id then some v else alookup id rest

/-- Removal of a key from an association list (Python dict.pop(key, None)). -/
def aremove {β : Type} (id : Nat) (l : List (Nat × β)) : List (Nat × β) :=
  l.filter (fun p => p.1 ≠ id)

/-- The order heapq uses on the (timetosend, messageid) tuples pushed by the
queue: Python tuples compare lexicographically. -/
def pairle (a b : ℚ × Nat) : Prop :=
  a.1 < b.1 ∨ (a.1 = b.1 ∧ a.2 ≤ b.2)

instance pairle.decRel : DecidableRel pairle := fun a b =>
  inferInstanceAs (Decidable (a.1 < b.1 ∨ (a.1 = b.1 ∧ a.2 ≤ b.2)))

/-- Insertion into the sorted-list model of the heap (heappush). -/
def hpush (x : ℚ × Nat) : List (ℚ × Nat) → List (ℚ × Nat)
  | [] => [x]
  | y :: rest => if pairle x y then x :: y :: rest else y :: hpush x rest

/-- Sorting the list model of the heap (heapify). -/
def hsort (l : List (ℚ × Nat)) : List (ℚ × Nat) :=
  l.foldr hpush []

/-- TransmissionQueue state: the authoritative _messages and _times dicts and
the heapq list _heap in its sorted-list model. -/
structure TransmissionQueue where
  messages : List (Nat × Msg)
  times : List (Nat × ℚ)
  heap : List (ℚ × Nat)
deriving DecidableEq

namespace TransmissionQueue

/-- The freshly constructed queue. -/
def empty : TransmissionQueue := { messages := [], times := [], heap := [] }

/-- TransmissionQueue.enqueue_message.  The source asserts that the identifier
is in neither dict before mutating; an assertion failure aborts the call with
the state unchanged, modelled by the none result. -/
def enqueue_message (q : TransmissionQueue) (msg : Msg) (timetosend : ℚ) :
    Option TransmissionQueue :=
  let messageid := msg.Identifier
  if alookup messageid q.messages ≠ none ∨ alookup messageid q.times ≠ none then
    none
  else
    some { messages := (messageid, msg) :: q.messages,
           times := (messageid, timetosend) :: q.times,
           heap := hpush (timetosend, messageid) q.heap }

/-- TransmissionQueue._buildheap: rebuild the heap from the live _times
entries when more than half of the heap entries are stale. -/
def buildheap (q : TransmissionQueue) : TransmissionQueue :=
  if 2 * q.times.length < q.heap.length then
    { q with heap := hsort (q.times.map (fun p => (p.2, p.1))) }
  else
    q

/-- TransmissionQueue.dequeue_message: drop the identifier from both dicts
(a no-op for each dict if absent) and run _buildheap. -/
def dequeue_message (q : TransmissionQueue) (msg : Msg) : TransmissionQueue :=
  buildheap { q with messages := aremove msg.Identifier q.messages,
                     times := aremove msg.Identifier q.times }

/-- TransmissionQueue._trimheap: pop stale entries (identifier gone from
_times, or recorded time no longer the current one) off the front. -/
def trimheap (times : List (Nat × ℚ)) : List (ℚ × Nat) → List (ℚ × Nat)
  | [] => []
  | (t, id) :: rest =>
    if alookup id times = some t then (t, id) :: rest
    else trimheap times rest

/-- TransmissionQueue.Head: trim the heap, then report the front entry and
its message.  The source asserts that the front identifier is in _messages;
the assertion branch is modelled by the none result and is proved unreachable
on reachable states. -/
def Head (q : TransmissionQueue) : Option (ℚ × Msg) × TransmissionQueue :=
  let h := trimheap q.times q.heap
  (match h with
   | [] => none
   | (t, id) :: _ =>
     match alookup id q.messages with
     | some m => some (t, m)
     | none => none,
   { q with heap := h })

/-- TransmissionQueue.Count: the number of live entries. -/
def Count (q : TransmissionQueue) : Nat := q.times.length

end TransmissionQueue

namespace Node

/-- Node.enqueue_message: system messages are scheduled immediately
(timetosend 0), others at now + delay.  The delay argument abstracts the
value self.Delay() returns on this call. -/
def enqueue_message (q : TransmissionQueue) (msg : Msg) (now delay : ℚ) :
    Option TransmissionQueue :=
  q.enqueue_message msg (if msg.IsSystemMessage then 0 else now + delay)

/-- Node.get_next_message.  Modelled from the spec: the token_bucket module
is not part of this file, so the bucket is state-passed through the consume
argument, which takes the message length and the bucket state and returns
the grant decision together with the new bucket state. -/
def get_next_message {B : Type} (consume : Nat → B → Bool × B)
    (q : TransmissionQueue) (bucket : B) (now : ℚ) :
    Option Msg × TransmissionQueue × B :=
  if 0 < q.Count then
    let info := (TransmissionQueue.Head q).1
    let q2 := (TransmissionQueue.Head q).2
    match info with
    | none => (none, q2, bucket)
    | some (timetosend, msg) =>
      if timetosend < now then
        if msg.IsSystemMessage then
          (some msg, q2.dequeue_message msg, bucket)
        else
          let res := consume msg.length bucket
          if res.1 then (some msg, q2.dequeue_message msg, res.2)
          else (none, q2, res.2)
      else (none, q2, bucket)
  else (none, q, bucket)

/-- Node.message_dropped backs off the estimator and re-enqueues the message.
The now argument is the optional Python argument; wallclock abstracts
time.time().  Python tests the argument with a truthiness check (if not now),
so both None and 0 select the wall clock. -/
def message_dropped (est : RoundTripEstimator) (q : TransmissionQueue)
    (msg : Msg) (now : Option ℚ) (wallclock delay : ℚ) :
    RoundTripEstimator × Option TransmissionQueue :=
  let n : ℚ :=
    match now with
    | none => wallclock
    | some t => if t = 0 then wallclock else t
  (est.backoff, enqueue_message q msg n delay)

end Node

/-- The size bound the rebuild policy maintains: the heap never holds more
than twice as many entries as the live mapping. -/
def heapBound (q : TransmissionQueue) : Prop :=
  q.heap.length ≤ 2 * q.times.length

instance heapBound.dec (q : TransmissionQueue) : Decidable (heapBound q) :=
  inferInstanceAs (Decidable (_ ≤ _))

/-- Well-formedness of a queue state, maintained by every operation: the two
dicts have distinct keys and the same key set, each message is filed under
its own identifier, the heap contains the current pair of every live entry,
the heap is sorted, and the rebuild size bound holds. -/
def WF (q : TransmissionQueue) : Prop :=
  (q.times.map Prod.fst).Nodup ∧
  (q.messages.map Prod.fst).Nodup ∧
  (∀ p ∈ q.times, (alookup p.1 q.messages).isSome = true) ∧
  (∀ p ∈ q.messages, (alookup p.1 q.times).isSome = true) ∧
  (∀ p ∈ q.messages, Msg.Identifier p.2 = p.1) ∧
  (∀ p ∈ q.times, ((p.2, p.1) : ℚ × Nat) ∈ q.heap) ∧
  q.heap.Pairwise pairle ∧
  heapBound q

instance WF.dec (q : TransmissionQueue) : Decidable (WF q) := by
  unfold WF heapBound
  infer_instance

/-- One public mutation of a TransmissionQueue. -/
inductive QOp where
  | enq : Msg → ℚ → QOp
  | deq : Msg → QOp

/-- Apply one queue call; a failed enqueue (duplicate identifier raises an
assertion before any mutation) leaves the state unchanged. -/
def QOp.apply (q : TransmissionQueue) : QOp → TransmissionQueue
  | .enq m t => (q.enqueue_message m t).getD q
  | .deq m => q.dequeue_message m

/-- Apply a sequence of queue calls in order. -/
def applyQOps (q : TransmissionQueue) (ops : List QOp) : TransmissionQueue :=
  ops.foldl QOp.apply q

/-- Queue states reachable through the public operations. -/
inductive Reachable : TransmissionQueue → Prop where
  | empty : Reachable TransmissionQueue.empty
  | enq : ∀ q msg t q2, Reachable q → q.enqueue_message msg t = some q2 →
      Reachable q2
  | deq : ∀ q msg, Reachable q → Reachable (q.dequeue_message msg)
  | head : ∀ q, Reachable q → Reachable (TransmissionQueue.Head q).2
  | next : ∀ {B : Type} (consume : Nat → B → Bool × B) q bucket now,
      Reachable q →
      Reachable (Node.get_next_message consume q bucket now).2.1

/-- Sample non-system message. -/
def msgA : Msg := { Identifier := 1, IsSystemMessage := false, length := 10 }

/-- Second sample non-system message, with a larger identifier. -/
def msgB : Msg := { Identifier := 2, IsSystemMessage := false, length := 10 }

/-- Sample system message. -/
def msgS : Msg := { Identifier := 3, IsSystemMessage := true, length := 4 }

/-- Sample queue state: the result of enqueueing msgA at time 5 into the
fresh queue. -/
def qA : TransmissionQueue :=
  { messages := [(1, msgA)], times := [(1, 5)], heap := [(5, 1)] }

/-- Sample queue state: msgA at time 5, then msgB at time 7. -/
def qAB : TransmissionQueue :=
  { messages := [(2, msgB), (1, msgA)], times := [(2, 7), (1, 5)],
    heap := [(5, 1), (7, 2)] }

/-- Sample queue state: msgA at time 5, then msgB also at time 5 (a tie). -/
def qT2 : TransmissionQueue :=
  { messages := [(2, msgB), (1, msgA)], times := [(2, 5), (1, 5)],
    heap := [(5, 1), (5, 2)] }

/-- Sample queue state: msgA at time 5, then msgB at the strictly smaller
time 3. -/
def qAB3 : TransmissionQueue :=
  { messages := [(2, msgB), (1, msgA)], times := [(2, 3), (1, 5)],
    heap := [(3, 2), (5, 1)] }

/-- Token bucket stub that always grants and keeps its state. -/
def consumeAll : Nat → Nat → Bool × Nat := fun _ b => (true, b)

/-- Token bucket stub that always denies and keeps its state. -/
def consumeNone : Nat → Nat → Bool × Nat := fun _ b => (false, b)

namespace RoundTripEstimator

lemma update_RTO_bounds (s : RoundTripEstimator) (x : ℚ) :
    MinimumRTO ≤ (s.update x).RTO ∧ (s.update x).RTO ≤ MaximumRTO := by
  refine ⟨le_max_left _ _, max_le ?_ (min_le_left _ _)⟩
  norm_num [MinimumRTO, MaximumRTO]

lemma backoff_RTO_bounds (s : RoundTripEstimator)
    (h1 : MinimumRTO ≤ s.RTO) :
    MinimumRTO ≤ s.backoff.RTO ∧ s.backoff.RTO ≤ MaximumRTO := by
  have h1' : (1 : ℚ) ≤ s.RTO := by simpa [MinimumRTO] using h1
  constructor
  · refine le_min ?_ (by norm_num [MinimumRTO, MaximumRTO])
    simp only [MinimumRTO, BackoffRate]
    nlinarith
  · exact min_le_right _ _

lemma applyRTEOps_bounds (ops : List RTEOp) (s : RoundTripEstimator)
    (h : MinimumRTO ≤ s.RTO ∧ s.RTO ≤ MaximumRTO) :
    MinimumRTO ≤ (applyRTEOps s ops).RTO ∧ (applyRTEOps s ops).RTO ≤ MaximumRTO := by
  induction ops generalizing s with
  | nil => simpa [applyRTEOps] using h
  | cons op rest ih =>
    have hstep : MinimumRTO ≤ (RTEOp.apply s op).RTO ∧
        (RTEOp.apply s op).RTO ≤ MaximumRTO := by
      cases op with
      | upd x => exact update_RTO_bounds s x
      | back => exact backoff_RTO_bounds s h.1
    simpa [applyRTEOps] using ih (RTEOp.apply s op) hstep

end RoundTripEstimator

/-- C2: for every finite sequence of update(x) calls with x > 0, arbitrarily
interleaved with backoff() calls, applied to a freshly constructed
RoundTripEstimator, the RTO field lies within [1.0, 60.0] after construction
and after every call in the sequence (here: after every prefix of the
sequence, the empty prefix being the state right after construction). -/
theorem C2_rto_always_bounded (ops pre suf : List RTEOp)
    (_hpos : ∀ x : ℚ, RTEOp.upd x ∈ ops → 0 < x)
    (_hsplit : ops = pre ++ suf) :
    RoundTripEstimator.MinimumRTO ≤ (applyRTEOps RoundTripEstimator.init pre).RTO ∧
    (applyRTEOps RoundTripEstimator.init pre).RTO ≤ RoundTripEstimator.MaximumRTO := by
  refine RoundTripEstimator.applyRTEOps_bounds pre RoundTripEstimator.init ?_
  constructor
  · simp [RoundTripEstimator.init]
  · norm_num [RoundTripEstimator.init, RoundTripEstimator.MinimumRTO,
      RoundTripEstimator.MaximumRTO]

theorem C2_rto_always_bounded_witness :
    RoundTripEstimator.MinimumRTO ≤
      (applyRTEOps RoundTripEstimator.init [RTEOp.upd 2, RTEOp.back]).RTO ∧
    (applyRTEOps RoundTripEstimator.init [RTEOp.upd 2, RTEOp.back]).RTO ≤
      RoundTripEstimator.MaximumRTO :=
  C2_rto_always_bounded [RTEOp.upd 2, RTEOp.back] [RTEOp.upd 2, RTEOp.back] []
    (by intro x hx; simp at hx; subst hx; norm_num)
    (by simp)

/-- C3: backoff() sets RTO to min(RTO × 2.0, 60.0), resets SRTT and RTTVAR to
0, and the next update(measured) after a backoff behaves exactly as the
first-ever update on a freshly constructed estimator: it seeds SRTT = measured
and RTTVAR = measured / 2 rather than smoothing against the old history. -/
theorem C3_backoff_then_reseed (s : RoundTripEstimator) (m : ℚ) :
    s.backoff.RTO = min (s.RTO * RoundTripEstimator.BackoffRate)
      RoundTripEstimator.MaximumRTO ∧
    s.backoff.SRTT = 0 ∧
    s.backoff.RTTVAR = 0 ∧
    s.backoff.update m = RoundTripEstimator.init.update m ∧
    (s.backoff.update m).SRTT = m ∧
    (s.backoff.update m).RTTVAR = m * (1/2) := by
  refine ⟨rfl, rfl, rfl, ?_, ?_, ?_⟩ <;>
    simp [RoundTripEstimator.update, RoundTripEstimator.backoff,
      RoundTripEstimator.init]

/-- C7: the first update(measured) after construction or after a backoff
(both leave _RTTVAR = 0, the unseeded marker tested by the code) seeds
SRTT = measured and RTTVAR = measured / 2; every seeded update(measured)
(_RTTVAR ≠ 0) sets RTTVAR to (1-1/4)·RTTVAR + (1/4)·|SRTT - measured| and
SRTT to (1-1/8)·SRTT + (1/8)·measured; in both cases RTO is recomputed as
SRTT + max(1/40, 4·RTTVAR) over the updated values and clamped to [1, 60].
The last two conjuncts show that for positive measurements seededness is
exactly _RTTVAR ≠ 0: an update keeps the estimator seeded. -/
theorem C7_update_seeding_and_smoothing :
    RoundTripEstimator.init.RTTVAR = 0 ∧
    (∀ s : RoundTripEstimator, s.backoff.RTTVAR = 0) ∧
    (∀ (s : RoundTripEstimator) (m : ℚ), s.RTTVAR = 0 →
      s.update m =
        { RTO := max RoundTripEstimator.MinimumRTO
            (min RoundTripEstimator.MaximumRTO
              (m + max RoundTripEstimator.MinResolution
                (RoundTripEstimator.K * (m * (1/2))))),
          SRTT := m, RTTVAR := m * (1/2) }) ∧
    (∀ (s : RoundTripEstimator) (m : ℚ), s.RTTVAR ≠ 0 →
      s.update m =
        { RTO := max RoundTripEstimator.MinimumRTO
            (min RoundTripEstimator.MaximumRTO
              (((1 - RoundTripEstimator.ALPHA) * s.SRTT +
                  RoundTripEstimator.ALPHA * m) +
                max RoundTripEstimator.MinResolution
                  (RoundTripEstimator.K *
                    ((1 - RoundTripEstimator.BETA) * s.RTTVAR +
                      RoundTripEstimator.BETA * |s.SRTT - m|)))),
          SRTT := (1 - RoundTripEstimator.ALPHA) * s.SRTT +
            RoundTripEstimator.ALPHA * m,
          RTTVAR := (1 - RoundTripEstimator.BETA) * s.RTTVAR +
            RoundTripEstimator.BETA * |s.SRTT - m| }) ∧
    (∀ (s : RoundTripEstimator) (m : ℚ), s.RTTVAR = 0 → 0 < m →
      0 < (s.update m).RTTVAR) ∧
    (∀ (s : RoundTripEstimator) (m : ℚ), 0 < s.RTTVAR → 0 < m →
      0 < (s.update m).RTTVAR) := by
  refine ⟨rfl, fun s => rfl, ?_, ?_, ?_, ?_⟩
  · intro s m h
    simp [RoundTripEstimator.update, h]
  · intro s m h
    simp [RoundTripEstimator.update, h]
  · intro s m h hm
    simp only [RoundTripEstimator.update, h, if_true, if_pos]
    positivity
  · intro s m h hm
    have hne : s.RTTVAR ≠ 0 := ne_of_gt h
    simp only [RoundTripEstimator.update, hne, if_false, if_neg]
    have habs : (0:ℚ) ≤ |s.SRTT - m| := abs_nonneg _
    simp only [RoundTripEstimator.BETA]
    nlinarith

theorem C7_update_seeding_and_smoothing_witness :
    RoundTripEstimator.update ⟨1, 0, 0⟩ 2 =
      { RTO := max RoundTripEstimator.MinimumRTO
          (min RoundTripEstimator.MaximumRTO
            (2 + max RoundTripEstimator.MinResolution
              (RoundTripEstimator.K * (2 * (1/2))))),
        SRTT := 2, RTTVAR := 2 * (1/2) } ∧
    RoundTripEstimator.update ⟨1, 2, 1⟩ 3 =
      { RTO := max RoundTripEstimator.MinimumRTO
          (min RoundTripEstimator.MaximumRTO
            (((1 - RoundTripEstimator.ALPHA) * 2 +
                RoundTripEstimator.ALPHA * 3) +
              max RoundTripEstimator.MinResolution
                (RoundTripEstimator.K *
                  ((1 - RoundTripEstimator.BETA) * 1 +
                    RoundTripEstimator.BETA * |2 - (3:ℚ)|)))),
        SRTT := (1 - RoundTripEstimator.ALPHA) * 2 +
          RoundTripEstimator.ALPHA * 3,
        RTTVAR := (1 - RoundTripEstimator.BETA) * 1 +
          RoundTripEstimator.BETA * |2 - (3:ℚ)| } ∧
    0 < (RoundTripEstimator.update ⟨1, 0, 0⟩ 2).RTTVAR ∧
    0 < (RoundTripEstimator.update ⟨1, 2, 1⟩ 3).RTTVAR :=
  ⟨C7_update_seeding_and_smoothing.2.2.1 ⟨1, 0, 0⟩ 2 rfl,
   C7_update_seeding_and_smoothing.2.2.2.1 ⟨1, 2, 1⟩ 3 (by norm_num),
   C7_update_seeding_and_smoothing.2.2.2.2.1 ⟨1, 0, 0⟩ 2 rfl (by norm_num),
   C7_update_seeding_and_smoothing.2.2.2.2.2 ⟨1, 2, 1⟩ 3 (by norm_num)
     (by norm_num)⟩

lemma alookup_eq_none {β : Type} (id : Nat) (l : List (Nat × β)) :
    alookup id l = none ↔ id ∉ l.map Prod.fst := by
  induction l with
  | nil => simp [alookup]
  | cons p rest ih =>
    obtain ⟨k, v⟩ := p
    by_cases hk : k = id <;> (simp [alookup, hk, ih]; try tauto)

lemma alookup_mem {β : Type} {id : Nat} {v : β} {l : List (Nat × β)}
    (h : alookup id l = some v) : (id, v) ∈ l := by
  induction l with
  | nil => simp [alookup] at h
  | cons p rest ih =>
    obtain ⟨k, w⟩ := p
    by_cases hk : k = id
    · subst hk
      simp [alookup] at h
      subst h
      exact List.mem_cons_self _ _
    · simp [alookup, hk] at h
      exact List.mem_cons_of_mem _ (ih h)

lemma mem_alookup {β : Type} {id : Nat} {v : β} {l : List (Nat × β)}
    (hnd : (l.map Prod.fst).Nodup) (h : (id, v) ∈ l) : alookup id l = some v := by
  induction l with
  | nil => simp at h
  | cons p rest ih =>
    obtain ⟨k, w⟩ := p
    have hnd' : (∀ x : β, (k, x) ∉ rest) ∧ (rest.map Prod.fst).Nodup := by
      simpa using hnd
    rcases List.mem_cons.1 h with heq | hm
    · injection heq with h1 h2
      subst h1
      subst h2
      simp [alookup]
    · have hk : k ≠ id := by
        rintro rfl
        exact hnd'.1 v hm
      simp only [alookup, if_neg hk]
      exact ih hnd'.2 hm

lemma alookup_aremove {β : Type} (id id0 : Nat) (l : List (Nat × β)) :
    alookup id (aremove id0 l) = if id = id0 then none else alookup id l := by
  induction l with
  | nil => simp [alookup, aremove]
  | cons p rest ih =>
    obtain ⟨k, v⟩ := p
    by_cases hk0 : k = id0 <;> by_cases hk : k = id <;>
      simp_all [aremove, alookup, List.filter_cons]

lemma aremove_eq_self {β : Type} {id : Nat} {l : List (Nat × β)}
    (h : alookup id l = none) : aremove id l = l := by
  rw [alookup_eq_none] at h
  refine List.filter_eq_self.2 ?_
  intro p hp
  simp only [ne_eq, decide_eq_true_eq]
  rintro rfl
  exact h (List.mem_map.2 ⟨p, hp, rfl⟩)

lemma aremove_keys_nodup {β : Type} (id : Nat) {l : List (Nat × β)}
    (h : (l.map Prod.fst).Nodup) : ((aremove id l).map Prod.fst).Nodup :=
  h.sublist (List.Sublist.map Prod.fst (List.filter_sublist l))

lemma pairle_total (a b : ℚ × Nat) : pairle a b ∨ pairle b a := by
  rcases lt_trichotomy a.1 b.1 with h | h | h
  · exact Or.inl (Or.inl h)
  · rcases Nat.le_total a.2 b.2 with h2 | h2
    · exact Or.inl (Or.inr ⟨h, h2⟩)
    · exact Or.inr (Or.inr ⟨h.symm, h2⟩)
  · exact Or.inr (Or.inl h)

lemma pairle_trans {a b c : ℚ × Nat} (h1 : pairle a b) (h2 : pairle b c) :
    pairle a c := by
  rcases h1 with h1 | ⟨h1, h1'⟩ <;> rcases h2 with h2 | ⟨h2, h2'⟩
  · exact Or.inl (h1.trans h2)
  · exact Or.inl (h2 ▸ h1)
  · exact Or.inl (h1 ▸ h2)
  · exact Or.inr ⟨h1.trans h2, h1'.trans h2'⟩

lemma mem_hpush {x z : ℚ × Nat} {l : List (ℚ × Nat)} :
    z ∈ hpush x l ↔ z = x ∨ z ∈ l := by
  induction l with
  | nil => simp [hpush]
  | cons y rest ih =>
    by_cases h : pairle x y <;> (simp [hpush, h, ih]; try tauto)

lemma length_hpush (x : ℚ × Nat) (l : List (ℚ × Nat)) :
    (hpush x l).length = l.length + 1 := by
  induction l with
  | nil => rfl
  | cons y rest ih =>
    by_cases h : pairle x y <;> simp [hpush, h, ih]

lemma pairwise_hpush (x : ℚ × Nat) {l : List (ℚ × Nat)}
    (h : l.Pairwise pairle) : (hpush x l).Pairwise pairle := by
  induction l with
  | nil => simp [hpush]
  | cons y rest ih =>
    rcases List.pairwise_cons.1 h with ⟨hy, hrest⟩
    by_cases hxy : pairle x y
    · simp only [hpush, if_pos hxy]
      refine List.pairwise_cons.2 ⟨?_, h⟩
      intro z hz
      rcases List.mem_cons.1 hz with rfl | hz
      · exact hxy
      · exact pairle_trans hxy (hy z hz)
    · simp only [hpush, if_neg hxy]
      refine List.pairwise_cons.2 ⟨?_, ih hrest⟩
      intro z hz
      rcases mem_hpush.1 hz with rfl | hz
      · exact (pairle_total _ y).resolve_left hxy
      · exact hy z hz

lemma mem_hsort {z : ℚ × Nat} {l : List (ℚ × Nat)} : z ∈ hsort l ↔ z ∈ l := by
  induction l with
  | nil => simp [hsort]
  | cons y rest ih =>
    show z ∈ hpush y (hsort rest) ↔ _
    rw [mem_hpush, ih]
    simp

lemma length_hsort (l : List (ℚ × Nat)) : (hsort l).length = l.length := by
  induction l with
  | nil => rfl
  | cons y rest ih =>
    show (hpush y (hsort rest)).length = _
    rw [length_hpush, ih]
    simp

lemma pairwise_hsort (l : List (ℚ × Nat)) : (hsort l).Pairwise pairle := by
  induction l with
  | nil => simp [hsort]
  | cons y rest ih => exact pairwise_hpush y ih

namespace TransmissionQueue

lemma trim_subset {times : List (Nat × ℚ)} {h : List (ℚ × Nat)} :
    ∀ z ∈ trimheap times h, z ∈ h := by
  induction h with
  | nil => simp [trimheap]
  | cons p rest ih =>
    obtain ⟨t, id⟩ := p
    by_cases hv : alookup id times = some t
    · simp [trimheap, hv]
    · simp only [trimheap, if_neg hv]
      intro z hz
      exact List.mem_cons_of_mem _ (ih z hz)

lemma length_trim (times : List (Nat × ℚ)) (h : List (ℚ × Nat)) :
    (trimheap times h).length ≤ h.length := by
  induction h with
  | nil => simp [trimheap]
  | cons p rest ih =>
    obtain ⟨t, id⟩ := p
    by_cases hv : alookup id times = some t
    · simp [trimheap, hv]
    · simp only [trimheap, if_neg hv, List.length_cons]
      exact ih.trans (Nat.le_succ _)

lemma pairwise_trim {times : List (Nat × ℚ)} {h : List (ℚ × Nat)}
    (hp : h.Pairwise pairle) : (trimheap times h).Pairwise pairle := by
  induction h with
  | nil => simp [trimheap]
  | cons p rest ih =>
    obtain ⟨t, id⟩ := p
    rcases List.pairwise_cons.1 hp with ⟨hy, hrest⟩
    by_cases hv : alookup id times = some t
    · simpa [trimheap, hv] using hp
    · simp only [trimheap, if_neg hv]
      exact ih hrest

lemma trim_keeps_valid {times : List (Nat × ℚ)} {h : List (ℚ × Nat)}
    {t : ℚ} {id : Nat} (hv : alookup id times = some t) (hm : (t, id) ∈ h) :
    (t, id) ∈ trimheap times h := by
  induction h with
  | nil => simp at hm
  | cons p rest ih =>
    obtain ⟨t0, id0⟩ := p
    by_cases hv0 : alookup id0 times = some t0
    · simpa [trimheap, hv0] using hm
    · simp only [trimheap, if_neg hv0]
      rcases List.mem_cons.1 hm with heq | hm'
      · injection heq with h1 h2
        subst h1
        subst h2
        exact absurd hv hv0
      · exact ih hm'

lemma trim_front_valid {times : List (Nat × ℚ)} {h : List (ℚ × Nat)}
    {t : ℚ} {id : Nat} {rest : List (ℚ × Nat)}
    (he : trimheap times h = (t, id) :: rest) : alookup id times = some t := by
  induction h with
  | nil => simp [trimheap] at he
  | cons p tail ih =>
    obtain ⟨t0, id0⟩ := p
    by_cases hv0 : alookup id0 times = some t0
    · simp only [trimheap, if_pos hv0] at he
      injection he with h1 h2
      injection h1 with h3 h4
      subst h3
      subst h4
      exact hv0
    · simp only [trimheap, if_neg hv0] at he
      exact ih he

end TransmissionQueue

namespace TransmissionQueue

lemma wf_empty : WF empty := by
  refine ⟨?_, ?_, ?_, ?_, ?_, ?_, ?_, ?_⟩ <;> simp [empty, heapBound]

lemma wf_enqueue {q : TransmissionQueue} {msg : Msg} {t : ℚ}
    {q2 : TransmissionQueue} (hwf : WF q)
    (he : q.enqueue_message msg t = some q2) : WF q2 := by
  obtain ⟨h1, h2, h3, h4, h5, h6, h7, h8⟩ := hwf
  unfold enqueue_message at he
  by_cases hc : alookup msg.Identifier q.messages ≠ none ∨
      alookup msg.Identifier q.times ≠ none
  · simp only [if_pos hc] at he
    exact absurd he (by simp)
  · rw [if_neg hc] at he
    push_neg at hc
    obtain ⟨hm, ht⟩ := hc
    injection he with he2
    subst he2
    refine ⟨?_, ?_, ?_, ?_, ?_, ?_, ?_, ?_⟩
    · simp only [List.map_cons, List.nodup_cons]
      exact ⟨(alookup_eq_none _ _).1 ht, h1⟩
    · simp only [List.map_cons, List.nodup_cons]
      exact ⟨(alookup_eq_none _ _).1 hm, h2⟩
    · intro p hp
      rcases List.mem_cons.1 hp with rfl | hp
      · simp [alookup]
      · by_cases hid : msg.Identifier = p.1
        · simp [alookup, hid]
        · simp only [alookup, if_neg hid]
          exact h3 p hp
    · intro p hp
      rcases List.mem_cons.1 hp with rfl | hp
      · simp [alookup]
      · by_cases hid : msg.Identifier = p.1
        · simp [alookup, hid]
        · simp only [alookup, if_neg hid]
          exact h4 p hp
    · intro p hp
      rcases List.mem_cons.1 hp with rfl | hp
      · rfl
      · exact h5 p hp
    · intro p hp
      rcases List.mem_cons.1 hp with rfl | hp
      · exact mem_hpush.2 (Or.inl rfl)
      · exact mem_hpush.2 (Or.inr (h6 p hp))
    · exact pairwise_hpush _ h7
    · simp only [heapBound, length_hpush, List.length_cons] at h8 ⊢
      omega

lemma wf_dequeue {q : TransmissionQueue} (msg : Msg) (hwf : WF q) :
    WF (q.dequeue_message msg) := by
  obtain ⟨h1, h2, h3, h4, h5, h6, h7, h8⟩ := hwf
  unfold dequeue_message buildheap
  split
  next hc =>
    refine ⟨?_, ?_, ?_, ?_, ?_, ?_, ?_, ?_⟩
    · exact aremove_keys_nodup _ h1
    · exact aremove_keys_nodup _ h2
    · intro p hp
      have hp' := List.mem_filter.1 hp
      have hne : p.1 ≠ msg.Identifier := by simpa using hp'.2
      rw [alookup_aremove, if_neg hne]
      exact h3 p hp'.1
    · intro p hp
      have hp' := List.mem_filter.1 hp
      have hne : p.1 ≠ msg.Identifier := by simpa using hp'.2
      rw [alookup_aremove, if_neg hne]
      exact h4 p hp'.1
    · intro p hp
      exact h5 p (List.mem_filter.1 hp).1
    · intro p hp
      exact mem_hsort.2 (List.mem_map.2 ⟨p, hp, rfl⟩)
    · exact pairwise_hsort _
    · simp only [heapBound, length_hsort, List.length_map]
      omega
  next hc =>
    refine ⟨?_, ?_, ?_, ?_, ?_, ?_, ?_, ?_⟩
    · exact aremove_keys_nodup _ h1
    · exact aremove_keys_nodup _ h2
    · intro p hp
      have hp' := List.mem_filter.1 hp
      have hne : p.1 ≠ msg.Identifier := by simpa using hp'.2
      rw [alookup_aremove, if_neg hne]
      exact h3 p hp'.1
    · intro p hp
      have hp' := List.mem_filter.1 hp
      have hne : p.1 ≠ msg.Identifier := by simpa using hp'.2
      rw [alookup_aremove, if_neg hne]
      exact h4 p hp'.1
    · intro p hp
      exact h5 p (List.mem_filter.1 hp).1
    · intro p hp
      exact h6 p (List.mem_filter.1 hp).1
    · exact h7
    · simpa [heapBound] using Nat.le_of_not_lt hc

lemma Head_snd (q : TransmissionQueue) :
    (Head q).2 = { q with heap := trimheap q.times q.heap } := rfl

lemma wf_head {q : TransmissionQueue} (hwf : WF q) : WF (Head q).2 := by
  obtain ⟨h1, h2, h3, h4, h5, h6, h7, h8⟩ := hwf
  rw [Head_snd]
  refine ⟨h1, h2, h3, h4, h5, ?_, pairwise_trim h7, ?_⟩
  · intro p hp
    exact trim_keeps_valid (mem_alookup h1 hp) (h6 p hp)
  · exact (length_trim _ _).trans h8

lemma head_spec {q : TransmissionQueue} (hwf : WF q) (hpos : 0 < q.Count) :
    ∃ (t : ℚ) (id : Nat) (m : Msg) (rest : List (ℚ × Nat)),
      trimheap q.times q.heap = (t, id) :: rest ∧
      alookup id q.times = some t ∧
      alookup id q.messages = some m ∧
      m.Identifier = id ∧
      (Head q).1 = some (t, m) ∧
      ∀ p ∈ q.times, t ≤ p.2 := by
  obtain ⟨h1, h2, h3, h4, h5, h6, h7, h8⟩ := hwf
  obtain ⟨p0, hp0⟩ : ∃ p0, p0 ∈ q.times := by
    refine List.exists_mem_of_ne_nil _ (List.length_pos.1 ?_)
    simpa [Count] using hpos
  have hv0 : alookup p0.1 q.times = some p0.2 := mem_alookup h1 hp0
  have hmem : (p0.2, p0.1) ∈ trimheap q.times q.heap :=
    trim_keeps_valid hv0 (h6 p0 hp0)
  cases htrim : trimheap q.times q.heap with
  | nil => rw [htrim] at hmem; simp at hmem
  | cons front rest =>
    obtain ⟨t, id⟩ := front
    have hvalid : alookup id q.times = some t := trim_front_valid htrim
    obtain ⟨m, hmsg⟩ : ∃ m, alookup id q.messages = some m := by
      have := h3 ⟨id, t⟩ (alookup_mem hvalid)
      cases hx : alookup id q.messages with
      | none => rw [hx] at this; simp at this
      | some m => exact ⟨m, rfl⟩
    refine ⟨t, id, m, rest, rfl, hvalid, hmsg, h5 _ (alookup_mem hmsg), ?_, ?_⟩
    · unfold Head
      simp only [htrim, hmsg]
    · intro p hp
      have hptrim : (p.2, p.1) ∈ trimheap q.times q.heap :=
        trim_keeps_valid (mem_alookup h1 hp) (h6 p hp)
      rw [htrim] at hptrim
      rcases List.mem_cons.1 hptrim with heq | hrest
      · injection heq with hh1 hh2
        exact le_of_eq hh1.symm
      · have hpw := @pairwise_trim q.times q.heap h7
        rw [htrim] at hpw
        have := (List.pairwise_cons.1 hpw).1 _ hrest
        rcases this with hlt | ⟨heq, _⟩
        · exact le_of_lt hlt
        · exact le_of_eq heq

end TransmissionQueue

lemma wf_get_next {B : Type} (consume : Nat → B → Bool × B)
    (q : TransmissionQueue) (bucket : B) (now : ℚ) (hwf : WF q) :
    WF (Node.get_next_message consume q bucket now).2.1 := by
  have hwf2 := TransmissionQueue.wf_head hwf
  unfold Node.get_next_message
  dsimp only
  split
  · split
    · exact hwf2
    · split
      · split
        · exact TransmissionQueue.wf_dequeue _ hwf2
        · split
          · exact TransmissionQueue.wf_dequeue _ hwf2
          · exact hwf2
      · exact hwf2
  · exact hwf

lemma reachable_wf {q : TransmissionQueue} (h : Reachable q) : WF q := by
  induction h with
  | empty => exact TransmissionQueue.wf_empty
  | enq q msg t q2 hreach he ih => exact TransmissionQueue.wf_enqueue ih he
  | deq q msg hreach ih => exact TransmissionQueue.wf_dequeue msg ih
  | head q hreach ih => exact TransmissionQueue.wf_head ih
  | next consume q bucket now hreach ih => exact wf_get_next consume q bucket now ih

/-- C10: in every TransmissionQueue state reachable through the public
operations, the heap contains the current (time_to_send, identifier) pair of
every live mapping entry; consequently, whenever Count > 0, Head returns some
pair (t, m) with m live and t the currently recorded time for m, and never
returns none while Count > 0 — so the None guard in get_next_message after a
positive Count check is unreachable. -/
theorem C10_heap_complete_head_total (q : TransmissionQueue)
    (h : Reachable q) :
    (∀ p ∈ q.times, ((p.2, p.1) : ℚ × Nat) ∈ q.heap) ∧
    (0 < q.Count → ∃ t m, (TransmissionQueue.Head q).1 = some (t, m) ∧
      alookup m.Identifier q.messages = some m ∧
      alookup m.Identifier q.times = some t) ∧
    (0 < q.Count → (TransmissionQueue.Head q).1 ≠ none) := by
  have hwf := reachable_wf h
  have hcomplete := hwf.2.2.2.2.2.1
  refine ⟨hcomplete, ?_, ?_⟩
  · intro hpos
    obtain ⟨t, id, m, rest, htrim, hvalid, hmsg, hid, hhead, hmin⟩ :=
      TransmissionQueue.head_spec hwf hpos
    exact ⟨t, m, hhead, by rw [hid]; exact hmsg, by rw [hid]; exact hvalid⟩
  · intro hpos
    obtain ⟨t, id, m, rest, htrim, hvalid, hmsg, hid, hhead, hmin⟩ :=
      TransmissionQueue.head_spec hwf hpos
    rw [hhead]
    simp

theorem C10_heap_complete_head_total_witness :
    (∀ p ∈ qA.times, ((p.2, p.1) : ℚ × Nat) ∈ qA.heap) ∧
    (∃ t m, (TransmissionQueue.Head qA).1 = some (t, m) ∧
      alookup m.Identifier qA.messages = some m ∧
      alookup m.Identifier qA.times = some t) ∧
    (TransmissionQueue.Head qA).1 ≠ none := by
  have h := C10_heap_complete_head_total qA
    (Reachable.enq TransmissionQueue.empty msgA 5 qA Reachable.empty
      (by decide))
  exact ⟨h.1, h.2.1 (by decide), h.2.2 (by decide)⟩

namespace TransmissionQueue

lemma enqueue_eq_some {q q2 : TransmissionQueue} {msg : Msg} {t : ℚ}
    (he : q.enqueue_message msg t = some q2) :
    alookup msg.Identifier q.messages = none ∧
    alookup msg.Identifier q.times = none ∧
    q2 = { messages := (msg.Identifier, msg) :: q.messages,
           times := (msg.Identifier, t) :: q.times,
           heap := hpush (t, msg.Identifier) q.heap } := by
  unfold enqueue_message at he
  by_cases hc : alookup msg.Identifier q.messages ≠ none ∨
      alookup msg.Identifier q.times ≠ none
  · simp only [if_pos hc] at he
    exact absurd he (by simp)
  · rw [if_neg hc] at he
    push_neg at hc
    injection he with he2
    exact ⟨hc.1, hc.2, he2.symm⟩

lemma buildheap_times (q : TransmissionQueue) : (buildheap q).times = q.times := by
  unfold buildheap
  split <;> rfl

lemma buildheap_messages (q : TransmissionQueue) :
    (buildheap q).messages = q.messages := by
  unfold buildheap
  split <;> rfl

lemma dequeue_times (q : TransmissionQueue) (msg : Msg) :
    (q.dequeue_message msg).times = aremove msg.Identifier q.times := by
  unfold dequeue_message
  rw [buildheap_times]

lemma dequeue_messages (q : TransmissionQueue) (msg : Msg) :
    (q.dequeue_message msg).messages = aremove msg.Identifier q.messages := by
  unfold dequeue_message
  rw [buildheap_messages]

lemma heapBound_enqueue {q q2 : TransmissionQueue} {msg : Msg} {t : ℚ}
    (hb : heapBound q) (he : q.enqueue_message msg t = some q2) :
    heapBound q2 := by
  obtain ⟨-, -, rfl⟩ := enqueue_eq_some he
  simp only [heapBound, length_hpush, List.length_cons] at hb ⊢
  omega

lemma heapBound_dequeue (q : TransmissionQueue) (msg : Msg) :
    heapBound (q.dequeue_message msg) := by
  unfold dequeue_message buildheap
  split
  next hc =>
    simp only [heapBound, length_hsort, List.length_map]
    omega
  next hc =>
    simpa [heapBound] using Nat.le_of_not_lt hc

end TransmissionQueue

/-- C4: starting from any state satisfying the rebuild size bound (the heap
no longer than twice the live mapping), every sequence of enqueue and dequeue
calls keeps the bound after every call — a full rebuild from the live
entries fires inside dequeue exactly when the heap would otherwise exceed
twice the live count, as the final conjunct records. -/
theorem C4_heap_size_bounded (q : TransmissionQueue) (ops : List QOp)
    (hb : heapBound q) :
    heapBound (applyQOps q ops) ∧
    (∀ (r : TransmissionQueue) (msg : Msg),
      2 * (aremove msg.Identifier r.times).length < r.heap.length →
      (r.dequeue_message msg).heap.length =
        (aremove msg.Identifier r.times).length) ∧
    (∀ (r : TransmissionQueue) (msg : Msg),
      heapBound (r.dequeue_message msg)) := by
  refine ⟨?_, ?_, fun r msg => TransmissionQueue.heapBound_dequeue r msg⟩
  · induction ops generalizing q with
    | nil => simpa [applyQOps] using hb
    | cons op rest ih =>
      have hstep : heapBound (QOp.apply q op) := by
        cases op with
        | enq m t =>
          cases he : q.enqueue_message m t with
          | none => simpa [QOp.apply, he] using hb
          | some q2 =>
            simpa [QOp.apply, he] using TransmissionQueue.heapBound_enqueue hb he
        | deq m => exact TransmissionQueue.heapBound_dequeue q m
      simpa [applyQOps] using ih _ hstep
  · intro r msg hr
    unfold TransmissionQueue.dequeue_message TransmissionQueue.buildheap
    rw [if_pos hr]
    simp [length_hsort]

theorem C4_heap_size_bounded_witness :
    heapBound (applyQOps TransmissionQueue.empty
      [QOp.enq msgA 5, QOp.enq msgB 7, QOp.deq msgA, QOp.deq msgB]) :=
  (C4_heap_size_bounded TransmissionQueue.empty
    [QOp.enq msgA 5, QOp.enq msgB 7, QOp.deq msgA, QOp.deq msgB]
    (by decide)).1

/-- C5: enqueue_message with an identifier already present among the live
entries fails immediately (the assertion aborts the call, modelled by the
none result) and is never silently absorbed; enqueueing the same identifier
twice without an intervening dequeue fails; dequeue_message for an absent
identifier is a no-op, not an error. -/
theorem C5_duplicate_fails_absent_noop :
    (∀ (q : TransmissionQueue) (msg : Msg) (t : ℚ),
      alookup msg.Identifier q.times ≠ none ∨
        alookup msg.Identifier q.messages ≠ none →
      q.enqueue_message msg t = none) ∧
    (∀ (q : TransmissionQueue) (msg msg2 : Msg) (t t2 : ℚ)
        (q2 : TransmissionQueue),
      msg2.Identifier = msg.Identifier →
      q.enqueue_message msg t = some q2 →
      q2.enqueue_message msg2 t2 = none) ∧
    (∀ (q : TransmissionQueue) (msg : Msg),
      alookup msg.Identifier q.times = none →
      alookup msg.Identifier q.messages = none →
      (q.dequeue_message msg).times = q.times ∧
      (q.dequeue_message msg).messages = q.messages ∧
      (heapBound q → q.dequeue_message msg = q)) := by
  have h1 : ∀ (q : TransmissionQueue) (msg : Msg) (t : ℚ),
      alookup msg.Identifier q.times ≠ none ∨
        alookup msg.Identifier q.messages ≠ none →
      q.enqueue_message msg t = none := by
    intro q msg t h
    unfold TransmissionQueue.enqueue_message
    rw [if_pos h.symm]
  refine ⟨h1, ?_, ?_⟩
  · intro q msg msg2 t t2 q2 hid he
    obtain ⟨-, -, rfl⟩ := TransmissionQueue.enqueue_eq_some he
    refine h1 _ msg2 t2 (Or.inl ?_)
    simp [alookup, hid]
  · intro q msg ht hm
    have hrt : aremove msg.Identifier q.times = q.times := aremove_eq_self ht
    have hrm : aremove msg.Identifier q.messages = q.messages :=
      aremove_eq_self hm
    refine ⟨?_, ?_, ?_⟩
    · rw [TransmissionQueue.dequeue_times, hrt]
    · rw [TransmissionQueue.dequeue_messages, hrm]
    · intro hb
      unfold TransmissionQueue.dequeue_message
      rw [hrt, hrm]
      unfold TransmissionQueue.buildheap
      rw [if_neg (by simpa [heapBound] using Nat.not_lt.2 hb)]

theorem C5_duplicate_fails_absent_noop_witness :
    qA.enqueue_message msgA 3 = none ∧
    qA.enqueue_message msgA 7 = none ∧
    (TransmissionQueue.empty.dequeue_message msgB).times =
      TransmissionQueue.empty.times ∧
    (TransmissionQueue.empty.dequeue_message msgB).messages =
      TransmissionQueue.empty.messages ∧
    TransmissionQueue.empty.dequeue_message msgB = TransmissionQueue.empty := by
  have hx := C5_duplicate_fails_absent_noop.2.2 TransmissionQueue.empty msgB
    (by decide) (by decide)
  exact ⟨C5_duplicate_fails_absent_noop.1 qA msgA 3 (Or.inl (by decide)),
    C5_duplicate_fails_absent_noop.2.1 TransmissionQueue.empty msgA msgA 5 7 qA
      rfl (by decide),
    hx.1, hx.2.1, hx.2.2 (by decide)⟩

namespace TransmissionQueue

lemma head_some {q : TransmissionQueue} {t : ℚ} {m : Msg}
    (h : (Head q).1 = some (t, m)) :
    ∃ id rest, trimheap q.times q.heap = (t, id) :: rest ∧
      alookup id q.times = some t ∧ alookup id q.messages = some m := by
  unfold Head at h
  dsimp only at h
  cases htrim : trimheap q.times q.heap with
  | nil =>
    rw [htrim] at h
    simp at h
  | cons front rest =>
    obtain ⟨t0, id0⟩ := front
    rw [htrim] at h
    dsimp only at h
    cases hm : alookup id0 q.messages with
    | none =>
      rw [hm] at h
      simp at h
    | some m0 =>
      rw [hm] at h
      simp only [Option.some.injEq] at h
      injection h with h1 h2
      subst h1
      subst h2
      exact ⟨id0, rest, rfl, trim_front_valid htrim, hm⟩

end TransmissionQueue

/-- C6: after dequeue_message(m), a subsequent Head never returns m, even
though the original heap entry of m may still be physically present: stale
front entries are discarded by the trim pass before Head answers, and any
entry Head does report carries an identifier still live in the mapping,
hence different from the dequeued identifier. -/
theorem C6_dequeued_never_returned (q : TransmissionQueue) (msg : Msg)
    (hwf : WF q) (t : ℚ) (m2 : Msg)
    (hh : (TransmissionQueue.Head (q.dequeue_message msg)).1 = some (t, m2)) :
    m2.Identifier ≠ msg.Identifier ∧ m2 ≠ msg := by
  have hwf2 := TransmissionQueue.wf_dequeue msg hwf
  obtain ⟨id, rest, htrim, hvalid, hmsg⟩ := TransmissionQueue.head_some hh
  have hid : m2.Identifier = id :=
    hwf2.2.2.2.2.1 _ (alookup_mem hmsg)
  have hne : id ≠ msg.Identifier := by
    intro heq
    rw [TransmissionQueue.dequeue_times, heq, alookup_aremove] at hvalid
    simp at hvalid
  refine ⟨by rw [hid]; exact hne, ?_⟩
  intro heq
  exact hne (by rw [← hid, heq])

theorem C6_dequeued_never_returned_witness :
    msgB.Identifier ≠ msgA.Identifier ∧ msgB ≠ msgA :=
  C6_dequeued_never_returned qAB msgA (by decide) 7 msgB (by decide)

/-- C9 (amended): enqueue_message(m, t) followed immediately by Head returns
(t, m) when t is strictly below every previously enqueued time; when t only
ties the minimum, Head still returns an entry with time t, but the message
may be a previously enqueued one carrying the tied time: the heapq tuples
(time, identifier) compare lexicographically, so equal times are ordered by
identifier rather than arbitrarily or by insertion order. -/
theorem C9_enqueue_then_head (q : TransmissionQueue) (msg : Msg) (t : ℚ)
    (q2 : TransmissionQueue) (hwf : WF q)
    (he : q.enqueue_message msg t = some q2) :
    ((∀ p ∈ q.times, t < p.2) →
      (TransmissionQueue.Head q2).1 = some (t, msg)) ∧
    ((∀ p ∈ q.times, t ≤ p.2) →
      ∃ m2 : Msg, (TransmissionQueue.Head q2).1 = some (t, m2)) := by
  have hwf2 := TransmissionQueue.wf_enqueue hwf he
  obtain ⟨hm0, ht0, hq2⟩ := TransmissionQueue.enqueue_eq_some he
  have hpos : 0 < q2.Count := by
    rw [hq2]
    simp [TransmissionQueue.Count]
  obtain ⟨t0, id0, m0, rest, htrim, hvalid, hmsg, hid, hhead, hmin⟩ :=
    TransmissionQueue.head_spec hwf2 hpos
  have hmem0 : (id0, t0) ∈ q2.times := alookup_mem hvalid
  have ht0le : t0 ≤ t := by
    refine hmin (msg.Identifier, t) ?_
    rw [hq2]
    exact List.mem_cons_self _ _
  constructor
  · intro hstrict
    rcases (by rw [hq2] at hmem0; exact List.mem_cons.1 hmem0 :
        (id0, t0) = (msg.Identifier, t) ∨ (id0, t0) ∈ q.times) with heq | hmem
    · injection heq with h1 h2
      subst h1
      subst h2
      have : m0 = msg := by
        rw [hq2] at hmsg
        simp [alookup] at hmsg
        exact hmsg.symm
      rw [hhead, this]
    · exact absurd ht0le (not_le.2 (hstrict _ hmem))
  · intro htie
    have : t0 = t := by
      rcases (by rw [hq2] at hmem0; exact List.mem_cons.1 hmem0 :
          (id0, t0) = (msg.Identifier, t) ∨ (id0, t0) ∈ q.times) with heq | hmem
      · cases heq
        rfl
      · exact le_antisymm ht0le (htie _ hmem)
    exact ⟨m0, by rw [hhead, this]⟩

theorem C9_enqueue_then_head_witness :
    (TransmissionQueue.Head qAB3).1 = some (3, msgB) ∧
    (∃ m2 : Msg, (TransmissionQueue.Head qAB3).1 = some (3, m2)) :=
  ⟨(C9_enqueue_then_head qA msgB 3 qAB3 (by decide) (by decide)).1
      (by decide),
   (C9_enqueue_then_head qA msgB 3 qAB3 (by decide) (by decide)).2
      (by decide)⟩

/-- C9 counterexample: msgA (identifier 1) is queued at time 5; enqueueing
msgB (identifier 2) also at time 5 makes 5 the minimum of all currently
enqueued times, yet an immediate Head returns (5, msgA), not (5, msgB): with
tied timestamps the heapq tuple comparison falls through to the identifier,
a deterministic secondary key, so the claim that Head then returns the
enqueued pair (t, m) fails. -/
theorem C9_tie_counterexample :
    TransmissionQueue.empty.enqueue_message msgA 5 = some qA ∧
    qA.enqueue_message msgB 5 = some qT2 ∧
    (∀ p ∈ qT2.times, (5:ℚ) ≤ p.2) ∧
    (TransmissionQueue.Head qT2).1 = some (5, msgA) ∧
    (TransmissionQueue.Head qT2).1 ≠ some (5, msgB) := by decide

lemma get_next_eq_zero {B : Type} (consume : Nat → B → Bool × B)
    (q : TransmissionQueue) (bucket : B) (now : ℚ)
    (hneg : ¬ 0 < q.Count) :
    Node.get_next_message consume q bucket now = (none, q, bucket) := by
  unfold Node.get_next_message
  rw [if_neg hneg]

lemma get_next_eq_pos {B : Type} (consume : Nat → B → Bool × B)
    (q : TransmissionQueue) (bucket : B) (now : ℚ)
    {t : ℚ} {m : Msg} (hpos : 0 < q.Count)
    (hh : (TransmissionQueue.Head q).1 = some (t, m)) :
    Node.get_next_message consume q bucket now =
      if t < now then
        if m.IsSystemMessage then
          (some m, (TransmissionQueue.Head q).2.dequeue_message m, bucket)
        else
          if (consume m.length bucket).1 then
            (some m, (TransmissionQueue.Head q).2.dequeue_message m,
              (consume m.length bucket).2)
          else (none, (TransmissionQueue.Head q).2,
            (consume m.length bucket).2)
      else (none, (TransmissionQueue.Head q).2, bucket) := by
  unfold Node.get_next_message
  rw [if_pos hpos]
  dsimp only
  rw [hh]

/-- C1: get_next_message(now) returns a message m only if m is a live entry
with the minimal scheduled time, its time_to_send lies strictly before now,
and m is a system message or the rate limiter granted capacity for its byte
length — in which case m is removed from the live mapping; whenever it
returns none the live mapping is unchanged (only stale heap entries may have
been trimmed), so a denied rate-limiter check does not dequeue and the head
message stays eligible; and unless the time gate has already passed for a
non-system head entry, the rate limiter is never consulted or debited: the
bucket comes back unchanged and the whole result is independent of the
consume function. -/
theorem C1_get_next_message_spec {B : Type} (consume : Nat → B → Bool × B)
    (q : TransmissionQueue) (bucket : B) (now : ℚ) (hwf : WF q) :
    (∀ m : Msg,
      (Node.get_next_message consume q bucket now).1 = some m →
      ∃ t : ℚ,
        alookup m.Identifier q.times = some t ∧
        alookup m.Identifier q.messages = some m ∧
        t < now ∧
        (∀ p ∈ q.times, t ≤ p.2) ∧
        (m.IsSystemMessage = true ∨ (consume m.length bucket).1 = true) ∧
        alookup m.Identifier
          (Node.get_next_message consume q bucket now).2.1.times = none) ∧
    ((Node.get_next_message consume q bucket now).1 = none →
      (Node.get_next_message consume q bucket now).2.1.times = q.times ∧
      (Node.get_next_message consume q bucket now).2.1.messages =
        q.messages) ∧
    ((¬ ∃ (t : ℚ) (m : Msg), (TransmissionQueue.Head q).1 = some (t, m) ∧
        t < now ∧ m.IsSystemMessage = false) →
      (Node.get_next_message consume q bucket now).2.2 = bucket ∧
      ∀ consume2 : Nat → B → Bool × B,
        Node.get_next_message consume2 q bucket now =
          Node.get_next_message consume q bucket now) := by
  by_cases hpos : 0 < q.Count
  case neg =>
    rw [get_next_eq_zero consume q bucket now hpos]
    refine ⟨?_, ?_, ?_⟩
    · intro m hm
      simp at hm
    · intro _
      exact ⟨rfl, rfl⟩
    · intro _
      exact ⟨rfl, fun c2 => by rw [get_next_eq_zero c2 q bucket now hpos]⟩
  case pos =>
    obtain ⟨t0, id0, m0, rest, htrim, hvalid, hmsg, hid, hhead, hmin⟩ :=
      TransmissionQueue.head_spec hwf hpos
    rw [get_next_eq_pos consume q bucket now hpos hhead]
    by_cases ht : t0 < now
    · rw [if_pos ht]
      by_cases hsys : m0.IsSystemMessage = true
      · rw [if_pos hsys]
        refine ⟨?_, ?_, ?_⟩
        · intro m hm
          dsimp only at hm
          obtain rfl : m0 = m := Option.some.inj hm
          refine ⟨t0, ?_, ?_, ht, hmin, Or.inl hsys, ?_⟩
          · rw [hid]
            exact hvalid
          · rw [hid]
            exact hmsg
          · dsimp only
            rw [TransmissionQueue.dequeue_times, alookup_aremove, if_pos rfl]
        · intro hnone
          dsimp only at hnone
          simp at hnone
        · intro _
          refine ⟨rfl, fun c2 => ?_⟩
          rw [get_next_eq_pos c2 q bucket now hpos hhead, if_pos ht,
            if_pos hsys]
      · rw [if_neg hsys]
        have hfalse : m0.IsSystemMessage = false := by
          simpa using hsys
        by_cases hgrant : (consume m0.length bucket).1 = true
        · rw [if_pos hgrant]
          refine ⟨?_, ?_, ?_⟩
          · intro m hm
            dsimp only at hm
            obtain rfl : m0 = m := Option.some.inj hm
            refine ⟨t0, ?_, ?_, ht, hmin, Or.inr hgrant, ?_⟩
            · rw [hid]
              exact hvalid
            · rw [hid]
              exact hmsg
            · dsimp only
              rw [TransmissionQueue.dequeue_times, alookup_aremove,
                if_pos rfl]
          · intro hnone
            dsimp only at hnone
            simp at hnone
          · intro hgate
            exact absurd ⟨t0, m0, hhead, ht, hfalse⟩ hgate
        · rw [if_neg hgrant]
          refine ⟨?_, ?_, ?_⟩
          · intro m hm
            dsimp only at hm
            simp at hm
          · intro _
            exact ⟨rfl, rfl⟩
          · intro hgate
            exact absurd ⟨t0, m0, hhead, ht, hfalse⟩ hgate
    · rw [if_neg ht]
      refine ⟨?_, ?_, ?_⟩
      · intro m hm
        dsimp only at hm
        simp at hm
      · intro _
        exact ⟨rfl, rfl⟩
      · intro _
        refine ⟨rfl, fun c2 => ?_⟩
        rw [get_next_eq_pos c2 q bucket now hpos hhead, if_neg ht]

theorem C1_get_next_message_spec_witness :
    (∃ t : ℚ,
      alookup msgA.Identifier qA.times = some t ∧
      alookup msgA.Identifier qA.messages = some msgA ∧
      t < 6 ∧
      (∀ p ∈ qA.times, t ≤ p.2) ∧
      (msgA.IsSystemMessage = true ∨ (consumeAll msgA.length 0).1 = true) ∧
      alookup msgA.Identifier
        (Node.get_next_message consumeAll qA 0 6).2.1.times = none) ∧
    ((Node.get_next_message consumeAll qA 0 4).2.1.times = qA.times ∧
      (Node.get_next_message consumeAll qA 0 4).2.1.messages =
        qA.messages) ∧
    ((Node.get_next_message consumeAll qA 0 4).2.2 = 0 ∧
      Node.get_next_message consumeNone qA 0 4 =
        Node.get_next_message consumeAll qA 0 4) := by
  have h6 := C1_get_next_message_spec consumeAll qA 0 6 (by decide)
  have h4 := C1_get_next_message_spec consumeAll qA 0 4 (by decide)
  have hgate : ¬ ∃ (t : ℚ) (m : Msg),
      (TransmissionQueue.Head qA).1 = some (t, m) ∧ t < 4 ∧
      m.IsSystemMessage = false := by
    rintro ⟨t, m, hh, ht, -⟩
    have he : (TransmissionQueue.Head qA).1 = some ((5 : ℚ), msgA) := by
      decide
    rw [he] at hh
    injection hh with hh1
    injection hh1 with hh2 hh3
    subst hh2
    exact absurd ht (by norm_num)
  have h43 := h4.2.2 hgate
  exact ⟨h6.1 msgA (by decide), h4.2.1 (by decide), h43.1, h43.2 consumeNone⟩

/-- C8 (amended): message_dropped triggers the estimator backoff and
re-enqueues the message through the standard enqueue_message delay policy at
the supplied now whenever that now is nonzero; when now is unspecified — or
specified as 0, which the Python truthiness test treats the same way — the
wall clock is used instead.  The dropped message does not retain its original
scheduled time: system messages become immediately eligible (time 0) and
others are scheduled at now + delay. -/
theorem C8_dropped_reschedules (est : RoundTripEstimator)
    (q : TransmissionQueue) (msg : Msg) (t wallclock delay : ℚ)
    (ht : t ≠ 0) :
    Node.message_dropped est q msg (some t) wallclock delay =
      (est.backoff, Node.enqueue_message q msg t delay) ∧
    Node.message_dropped est q msg none wallclock delay =
      (est.backoff, Node.enqueue_message q msg wallclock delay) ∧
    (msg.IsSystemMessage = true →
      Node.enqueue_message q msg t delay = q.enqueue_message msg 0) ∧
    (msg.IsSystemMessage = false →
      Node.enqueue_message q msg t delay =
        q.enqueue_message msg (t + delay)) := by
  refine ⟨?_, rfl, ?_, ?_⟩
  · unfold Node.message_dropped
    dsimp only
    rw [if_neg ht]
  · intro h
    unfold Node.enqueue_message
    rw [if_pos h]
  · intro h
    unfold Node.enqueue_message
    rw [if_neg (by simp [h])]

theorem C8_dropped_reschedules_witness :
    Node.message_dropped RoundTripEstimator.init TransmissionQueue.empty
        msgA (some 3) 9 1 =
      (RoundTripEstimator.init.backoff,
        Node.enqueue_message TransmissionQueue.empty msgA 3 1) ∧
    Node.message_dropped RoundTripEstimator.init TransmissionQueue.empty
        msgA none 9 1 =
      (RoundTripEstimator.init.backoff,
        Node.enqueue_message TransmissionQueue.empty msgA 9 1) ∧
    Node.enqueue_message TransmissionQueue.empty msgA 3 1 =
      TransmissionQueue.empty.enqueue_message msgA (3 + 1) := by
  have h := C8_dropped_reschedules RoundTripEstimator.init
    TransmissionQueue.empty msgA 3 9 1 (by norm_num)
  exact ⟨h.1, h.2.1, h.2.2.2 rfl⟩

/-- C8 counterexample: now = 0 is a specified argument, yet the Python
truthiness test (if not now) replaces it with the wall clock: dropping the
non-system msgA with now = some 0, wall clock 7 and delay 1 re-enqueues it
at time 7 + 1 instead of the supplied-now schedule 0 + 1, so the wall clock
is not used only when now is unspecified. -/
theorem C8_zero_now_counterexample :
    (Node.message_dropped RoundTripEstimator.init TransmissionQueue.empty
      msgA (some 0) 7 1).2 =
      some { messages := [(1, msgA)], times := [(1, 7 + 1)],
             heap := [(7 + 1, 1)] } ∧
    (7 + 1 : ℚ) ≠ 0 + 1 := by
  constructor
  · rfl
  · norm_num
